import Mathlib

/-!
Verification of the trajectory processing core
(`src/processing/process/trajectory.py`).

The numeric arrays of the Python code are modelled as `List ℝ` (float
arithmetic idealized as real arithmetic); 3-vectors as `ℝ × ℝ × ℝ`.
External scipy objects (the fitted Akima interpolant, the Gaussian
smoother) are modelled as abstract function parameters; scipy helpers
whose numeric behavior the code depends on (`medfilt`, `np.hanning`,
`np.average`, `np.linspace`, `np.nan_to_num`, `np.minimum`) are embedded
concretely below.
-/

noncomputable section

/-- A 3-vector (one row of an `N 3` array). -/
abbrev Vec3 : Type := ℝ × ℝ × ℝ

/-- Componentwise scalar multiple of a 3-vector. -/
def scaleV (c : ℝ) (v : Vec3) : Vec3 := (c * v.1, c * v.2.1, c * v.2.2)

/-- Componentwise addition of 3-vectors. -/
def addV (a b : Vec3) : Vec3 := (a.1 + b.1, a.2.1 + b.2.1, a.2.2 + b.2.2)

/-- `np.linalg.norm(v)` of one row: the Euclidean norm. -/
def norm3 (v : Vec3) : ℝ := Real.sqrt (v.1 ^ 2 + v.2.1 ^ 2 + v.2.2 ^ 2)

/-- The `Trajectory` NamedTuple.  The scipy `Akima1DInterpolator` object is
modelled by its timestamp grid `x` (`spline.x`), its evaluation function `f`
(`self.spline(·)`), and the evaluation `df` of its analytic derivative
(`self.spline.derivative()(·)`).  The `Slerp` member is not modelled: no
claim concerns the rotation output. -/
structure Trajectory where
  x : List ℝ
  f : ℝ → Vec3
  df : ℝ → Vec3

/-- `Trajectory.valid_mask`: elementwise
`(t - window >= spline.x[0]) & (t + window <= spline.x[-1])`. -/
def valid_mask (traj : Trajectory) (t : List ℝ) (window : ℝ) : List Bool :=
  t.map (fun ti =>
    decide (ti - window ≥ traj.x.headD 0) && decide (ti + window ≤ traj.x.getLastD 0))

/-- A concrete trajectory whose validity domain is `[0, 10]`
(interpolant values are irrelevant to the mask). -/
def traj10 : Trajectory :=
  { x := [0, 10], f := fun _ => (0, 0, 0), df := fun _ => (0, 0, 0) }

/-- `from_csv` timestamp handling: `t_slam = stamp / 1e9`, then
`if offset != 0: t_slam += offset`. -/
def adjustTimes (stamps_ns : List ℝ) (offset : ℝ) : List ℝ :=
  let t := stamps_ns.map (fun s => s / 10 ^ 9)
  if offset ≠ 0 then t.map (fun s => s + offset) else t

/-- Boolean check that a list is strictly increasing (the validation
performed by the scipy `Akima1DInterpolator` / `Slerp` constructors on
their timestamp grid). -/
def strictlyIncreasing : List ℝ → Bool
  | [] => true
  | [_] => true
  | a :: b :: rest => decide (a < b) && strictlyIncreasing (b :: rest)

/-- `Trajectory.from_csv`, with the CSV reading stripped away: it receives
the dataframe columns (`stamps_ns`, translations `xyzRaw`) directly.
`gauss` abstracts `scipy.ndimage.gaussian_filter1d` and `fit` abstracts the
Akima fit, returning the interpolant and its derivative as functions.

Modelled from the spec: the validation itself is performed by the external
scipy constructors (`Akima1DInterpolator` and `Slerp`), which are not under
`src/`; per the spec, construction "fails with a validation error if fewer
than 2 samples are supplied, or timestamps are not strictly increasing". -/
def from_samples (fit : List ℝ → List Vec3 → ((ℝ → Vec3) × (ℝ → Vec3)))
    (gauss : ℝ → List Vec3 → List Vec3)
    (stamps_ns : List ℝ) (xyzRaw : List Vec3) (smooth : ℝ) (offset : ℝ) :
    Except String Trajectory :=
  let t := adjustTimes stamps_ns offset
  if 2 ≤ stamps_ns.length ∧ strictlyIncreasing t = true then
    let xyz := if smooth > 0 then gauss smooth xyzRaw else xyzRaw
    let fd := fit t xyz
    Except.ok { x := t, f := fd.1, df := fd.2 }
  else
    Except.error "validation error: need at least 2 samples with strictly increasing timestamps"

theorem strictlyIncreasing_iff (l : List ℝ) :
    strictlyIncreasing l = true ↔ l.Chain' (· < ·) := by
  induction l with
  | nil => simp [strictlyIncreasing]
  | cons a tl ih =>
    cases tl with
    | nil => simp [strictlyIncreasing]
    | cons b rest =>
      rw [strictlyIncreasing, Bool.and_eq_true, decide_eq_true_iff, ih,
        List.chain'_cons]

/-- C9: construction succeeds iff there are at least 2 samples and the
offset-adjusted timestamps are strictly increasing; otherwise it fails with
a validation error. -/
theorem from_samples_ok_iff
    (fit : List ℝ → List Vec3 → ((ℝ → Vec3) × (ℝ → Vec3)))
    (gauss : ℝ → List Vec3 → List Vec3)
    (stamps_ns : List ℝ) (xyzRaw : List Vec3) (smooth : ℝ) (offset : ℝ) :
    ((∃ traj, from_samples fit gauss stamps_ns xyzRaw smooth offset = Except.ok traj) ↔
      (2 ≤ stamps_ns.length ∧ (adjustTimes stamps_ns offset).Chain' (· < ·))) ∧
    ((∃ e, from_samples fit gauss stamps_ns xyzRaw smooth offset = Except.error e) ↔
      ¬ (2 ≤ stamps_ns.length ∧ (adjustTimes stamps_ns offset).Chain' (· < ·))) := by
  rw [← strictlyIncreasing_iff]
  unfold from_samples
  by_cases h : 2 ≤ stamps_ns.length ∧ strictlyIncreasing (adjustTimes stamps_ns offset) = true
  · rw [if_pos h]
    refine ⟨⟨fun _ => h, fun _ => ⟨_, rfl⟩⟩, ⟨fun he => ?_, fun hn => absurd h hn⟩⟩
    obtain ⟨e, he⟩ := he
    exact Except.noConfusion he
  · rw [if_neg h]
    refine ⟨⟨fun ht => ?_, fun hc => absurd hc h⟩, ⟨fun _ => h, fun _ => ⟨_, rfl⟩⟩⟩
    obtain ⟨t', ht⟩ := ht
    exact Except.noConfusion ht

theorem from_samples_x (fit : List ℝ → List Vec3 → ((ℝ → Vec3) × (ℝ → Vec3)))
    (gauss : ℝ → List Vec3 → List Vec3)
    (stamps_ns : List ℝ) (xyzRaw : List Vec3) (smooth : ℝ) (offset : ℝ)
    (traj : Trajectory)
    (hok : from_samples fit gauss stamps_ns xyzRaw smooth offset = Except.ok traj) :
    traj.x = adjustTimes stamps_ns offset := by
  unfold from_samples at hok
  by_cases h : 2 ≤ stamps_ns.length ∧
      strictlyIncreasing (adjustTimes stamps_ns offset) = true
  · rw [if_pos h] at hok
    cases hok
    rfl
  · rw [if_neg h] at hok
    cases hok

theorem getD_map_of_lt {α β : Type} (f : α → β) (l : List α) (i : ℕ)
    (h : i < l.length) (d : β) (d' : α) :
    (l.map f).getD i d = f (l.getD i d') := by
  induction l generalizing i with
  | nil => exact absurd h (by simp)
  | cons a tl ih =>
    cases i with
    | zero => rfl
    | succ n =>
      simp only [List.map_cons, List.getD_cons_succ]
      exact ih n (Nat.lt_of_succ_lt_succ h)

/-- C3: for a constructed trajectory, an entry of `valid_mask` is true iff
the whole window fits inside the domain spanned by the first and last
offset-adjusted sample timestamps: `t - w ≥ t_min ∧ t + w ≤ t_max`. -/
theorem valid_mask_iff
    (fit : List ℝ → List Vec3 → ((ℝ → Vec3) × (ℝ → Vec3)))
    (gauss : ℝ → List Vec3 → List Vec3)
    (stamps_ns : List ℝ) (xyzRaw : List Vec3) (smooth : ℝ) (offset : ℝ)
    (traj : Trajectory)
    (hok : from_samples fit gauss stamps_ns xyzRaw smooth offset = Except.ok traj)
    (t : List ℝ) (w : ℝ) (i : ℕ) (hi : i < t.length) :
    (valid_mask traj t w).getD i false = true ↔
      (t.getD i 0 - w ≥ (adjustTimes stamps_ns offset).headD 0 ∧
       t.getD i 0 + w ≤ (adjustTimes stamps_ns offset).getLastD 0) := by
  rw [valid_mask, getD_map_of_lt _ t i hi false 0,
    from_samples_x fit gauss stamps_ns xyzRaw smooth offset traj hok,
    Bool.and_eq_true, decide_eq_true_iff, decide_eq_true_iff]

/-- A trivial Akima-fit stand-in for witnesses: constant-zero interpolant. -/
def fit0 : List ℝ → List Vec3 → ((ℝ → Vec3) × (ℝ → Vec3)) :=
  fun _ _ => (fun _ => (0, 0, 0), fun _ => (0, 0, 0))

/-- A trivial Gaussian-smoother stand-in for witnesses: identity. -/
def gauss0 : ℝ → List Vec3 → List Vec3 := fun _ v => v

/-- The trajectory produced by `from_samples fit0 gauss0 [0, 2e9] [] (-1) 1`. -/
def trajW : Trajectory :=
  { x := [1, 3], f := fun _ => (0, 0, 0), df := fun _ => (0, 0, 0) }

/-- C3 (witness): instantiated at stamps `[0ns, 2e9ns]` with offset `1`
(domain `[1, 3]`), query center `2`, half-window `1/2`. -/
theorem valid_mask_iff_witness :
    (valid_mask trajW [2] (1/2)).getD 0 false = true ↔
      ((2:ℝ) - 1/2 ≥ (adjustTimes [0, 2 * 10 ^ 9] 1).headD 0 ∧
       (2:ℝ) + 1/2 ≤ (adjustTimes [0, 2 * 10 ^ 9] 1).getLastD 0) :=
  valid_mask_iff fit0 gauss0 [0, 2 * 10 ^ 9] [] (-1) 1 trajW
    (by
      have hx : adjustTimes [0, 2 * 10 ^ 9] 1 = [1, 3] := by
        norm_num [adjustTimes]
      simp only [from_samples, hx]
      rw [if_pos]
      · rfl
      · exact ⟨by norm_num, by simp [strictlyIncreasing]⟩)
    [2] (1/2) 0 (by norm_num)

/-- C2 (counterexample): with domain `[0,10]` and `window = 0.1`, the mask at
centers `0.05, 0.2, 9.95, 9.96` is NOT `[false, true, true, false]` as the
claim states: `9.95 + 0.1 = 10.05 > 10`, so `9.95` is invalid. -/
theorem valid_mask_spec_example_cex :
    valid_mask traj10 [1/20, 1/5, 199/20, 249/25] (1/10) ≠
      [false, true, true, false] := by
  simp only [valid_mask, traj10, List.map, List.headD, List.getLastD]
  intro h
  have h3 := congrArg (fun l => l.getD 2 true) h
  simp only [List.getD_cons_succ, List.getD_cons_zero] at h3
  rw [Bool.and_eq_true, decide_eq_true_iff, decide_eq_true_iff] at h3
  norm_num at h3

/-- C2 (amended): with domain `[0,10]` and `window = 0.1`, the mask at
centers `0.05, 0.2, 9.95, 9.96` is `[false, true, false, false]`:
the window edge `9.95 + 0.1` exceeds `10`, so `9.95` is invalid. -/
theorem valid_mask_spec_example :
    valid_mask traj10 [1/20, 1/5, 199/20, 249/25] (1/10) =
      [false, true, false, false] := by
  simp only [valid_mask, traj10, List.map, List.headD, List.getLastD]
  refine congrArg₂ _ ?_ (congrArg₂ _ ?_ (congrArg₂ _ ?_ (congrArg₂ _ ?_ rfl))) <;>
    simp only [Bool.and_eq_true, Bool.and_eq_false_iff, decide_eq_true_iff,
      decide_eq_false_iff_not] <;> norm_num

/-- `np.linspace(a, b, k)`: `k` evenly spaced points from `a` to `b`
(`[a]` for `k = 1`, `[]` for `k = 0`). -/
def linspace (a b : ℝ) (k : ℕ) : List ℝ :=
  if k = 1 then [a]
  else (List.range k).map (fun (j : ℕ) => a + (b - a) * (j : ℝ) / ((k : ℝ) - 1))

/-- `np.hanning(k)`: the raised-cosine (Hann) window
`0.5 - 0.5*cos(2*pi*j/(k-1))`, with `[1]` for `k = 1` and `[]` for `k = 0`. -/
def hanning (k : ℕ) : List ℝ :=
  if k = 1 then [1]
  else (List.range k).map
    (fun (j : ℕ) => 1 / 2 - 1 / 2 * Real.cos (2 * Real.pi * (j : ℝ) / ((k : ℝ) - 1)))

/-- The subsample grid of `interpolate` for one query:
`t + np.linspace(-window/2, window/2, samples)`. -/
def subsampleTimes (t window : ℝ) (k : ℕ) : List ℝ :=
  (linspace (-(window / 2)) (window / 2) k).map (fun o => t + o)

/-- `sum(w_j • v_j)` over paired lists. -/
def weightedSumV (ws : List ℝ) (vs : List Vec3) : Vec3 :=
  (List.zipWith scaleV ws vs).foldr addV (0, 0, 0)

/-- `np.average(vs, weights=ws)` (componentwise): `none` models the
`ZeroDivisionError` numpy raises when the weights sum to zero. -/
def npAverageV (vs : List Vec3) (ws : List ℝ) : Option Vec3 :=
  if ws.sum = 0 then none else some (scaleV (ws.sum)⁻¹ (weightedSumV ws vs))

/-- The `pos` output of `Trajectory.interpolate` for one query: the
Hann-weighted average of the translation interpolant at the subsample
times. -/
def interpolatePos (traj : Trajectory) (t window : ℝ) (samples : ℕ) : Option Vec3 :=
  npAverageV ((subsampleTimes t window samples).map traj.f) (hanning samples)

/-- The `vel` output of `Trajectory.interpolate` for one query: the same
average over the interpolant's analytic derivative. -/
def interpolateVel (traj : Trajectory) (t window : ℝ) (samples : ℕ) : Option Vec3 :=
  npAverageV ((subsampleTimes t window samples).map traj.df) (hanning samples)

theorem weightedSumV_replicate (ws : List ℝ) (c : Vec3) :
    weightedSumV ws (List.replicate ws.length c) = scaleV ws.sum c := by
  induction ws with
  | nil => simp [weightedSumV, scaleV]
  | cons w tl ih =>
    simp only [List.length_cons, List.replicate_succ, weightedSumV,
      List.zipWith_cons_cons, List.foldr_cons] at ih ⊢
    rw [ih]
    simp only [scaleV, addV, List.sum_cons]
    refine Prod.ext ?_ (Prod.ext ?_ ?_) <;> simp <;> ring

theorem hanning_nonneg (k : ℕ) (y : ℝ) (hy : y ∈ hanning k) : 0 ≤ y := by
  rw [hanning] at hy
  by_cases hk : k = 1
  · rw [if_pos hk, List.mem_singleton] at hy
    rw [hy]; norm_num
  · rw [if_neg hk] at hy
    obtain ⟨j, _, rfl⟩ := List.mem_map.mp hy
    have := Real.cos_le_one (2 * Real.pi * (j : ℝ) / ((k : ℝ) - 1))
    linarith

theorem hanning_sum_pos (k : ℕ) (hk : 3 ≤ k) : 0 < (hanning k).sum := by
  have hkne : k ≠ 1 := by omega
  have hkr : (3 : ℝ) ≤ (k : ℝ) := by exact_mod_cast hk
  have hd : (0 : ℝ) < (k : ℝ) - 1 := by linarith
  have hθpos : 0 < 2 * Real.pi * ((1 : ℕ) : ℝ) / ((k : ℝ) - 1) := by
    push_cast
    positivity
  have hθlt : 2 * Real.pi * ((1 : ℕ) : ℝ) / ((k : ℝ) - 1) < 2 * Real.pi := by
    rw [div_lt_iff₀ hd]
    push_cast
    nlinarith [Real.pi_pos]
  have hcos : Real.cos (2 * Real.pi * ((1 : ℕ) : ℝ) / ((k : ℝ) - 1)) < 1 := by
    refine lt_of_le_of_ne (Real.cos_le_one _) ?_
    intro h1
    have := (Real.cos_eq_one_iff_of_lt_of_lt (by linarith) hθlt).mp h1
    exact absurd this (ne_of_gt hθpos)
  have hmem : (1 / 2 - 1 / 2 * Real.cos (2 * Real.pi * ((1 : ℕ) : ℝ) / ((k : ℝ) - 1)))
      ∈ hanning k := by
    rw [hanning, if_neg hkne]
    exact List.mem_map_of_mem _ (List.mem_range.mpr (by omega))
  have hle := List.single_le_sum (fun y hy => hanning_nonneg k y hy) _ hmem
  have : 0 < 1 / 2 - 1 / 2 * Real.cos (2 * Real.pi * ((1 : ℕ) : ℝ) / ((k : ℝ) - 1)) := by
    linarith
  linarith

/-- C6 (amended): for every subsample count `k ≥ 3`, the Hann-weighted
average used by `interpolate`, applied to a constant translation signal,
returns that constant exactly. -/
theorem interpolatePos_const (traj : Trajectory) (c : Vec3)
    (hf : ∀ s, traj.f s = c) (t w : ℝ) (k : ℕ) (hk : 3 ≤ k) :
    interpolatePos traj t w k = some c := by
  have hkne : k ≠ 1 := by omega
  have hlen_t : (subsampleTimes t w k).length = k := by
    rw [subsampleTimes, List.length_map, linspace, if_neg hkne, List.length_map,
      List.length_range]
  have hlen_h : (hanning k).length = k := by
    rw [hanning, if_neg hkne, List.length_map, List.length_range]
  have hmap : (subsampleTimes t w k).map traj.f = List.replicate k c := by
    rw [List.map_congr_left (fun a _ => hf a), List.map_const', hlen_t]
  have hsum := hanning_sum_pos k hk
  have hrep : List.replicate k c = List.replicate (hanning k).length c := by
    rw [hlen_h]
  rw [interpolatePos, hmap, npAverageV, if_neg (ne_of_gt hsum), hrep,
    weightedSumV_replicate]
  have hne : (hanning k).sum ≠ 0 := ne_of_gt hsum
  simp only [scaleV]
  rw [Option.some_inj]
  refine Prod.ext ?_ (Prod.ext ?_ ?_) <;> simp <;>
    rw [inv_mul_cancel_left₀ hne]

/-- A trajectory whose translation interpolant is constant `(1, 0, 0)`. -/
def trajConst : Trajectory :=
  { x := [0, 1], f := fun _ => (1, 0, 0), df := fun _ => (0, 0, 0) }

/-- C6 (counterexample): at subsample count `k = 2` the Hann window is
`np.hanning(2) = [0, 0]`; its weights sum to zero, so the weighted average
(`np.average` raises `ZeroDivisionError`, modelled as `none`) does NOT
return the constant. -/
theorem interpolatePos_const_cex :
    interpolatePos trajConst (1/2) (1/10) 2 ≠ some ((1 : ℝ), 0, 0) := by
  have e0 : 2 * Real.pi * ((0 : ℕ) : ℝ) / (((2 : ℕ) : ℝ) - 1) = 0 := by
    push_cast
    ring
  have e1 : 2 * Real.pi * ((1 : ℕ) : ℝ) / (((2 : ℕ) : ℝ) - 1) = 2 * Real.pi := by
    push_cast
    ring
  have h2 : hanning 2 = [0, 0] := by
    rw [hanning, if_neg (by norm_num), show List.range 2 = [0, 1] from rfl]
    simp only [List.map_cons, List.map_nil, e0, e1, Real.cos_zero, Real.cos_two_pi]
    norm_num
  rw [interpolatePos, h2, npAverageV, if_pos (by norm_num)]
  exact fun h => Option.noConfusion h

/-- C6 (witness for the amended claim): at `k = 3` the Hann-weighted
average of the constant signal `(1,0,0)` is exactly `(1,0,0)`. -/
theorem interpolatePos_const_witness :
    interpolatePos trajConst 0 1 3 = some ((1 : ℝ), 0, 0) :=
  interpolatePos_const trajConst ((1 : ℝ), 0, 0) (fun _ => rfl) 0 1 3 (by norm_num)

theorem linspace_bounds (a b : ℝ) (k : ℕ) (hab : a ≤ b) (o : ℝ)
    (ho : o ∈ linspace a b k) : a ≤ o ∧ o ≤ b := by
  rw [linspace] at ho
  by_cases hk : k = 1
  · rw [if_pos hk, List.mem_singleton] at ho
    rw [ho]
    exact ⟨le_refl a, hab⟩
  · rw [if_neg hk] at ho
    obtain ⟨j, hj, rfl⟩ := List.mem_map.mp ho
    rw [List.mem_range] at hj
    have hk2 : 2 ≤ k := by omega
    have hd : (0 : ℝ) < (k : ℝ) - 1 := by
      have : (2 : ℝ) ≤ (k : ℝ) := by exact_mod_cast hk2
      linarith
    have hj' : (j : ℝ) ≤ (k : ℝ) - 1 := by
      have hj2 : (j : ℝ) + 1 ≤ (k : ℝ) := by exact_mod_cast hj
      linarith
    have h0 : 0 ≤ (j : ℝ) / ((k : ℝ) - 1) := by positivity
    have h1 : (j : ℝ) / ((k : ℝ) - 1) ≤ 1 := by
      rw [div_le_one hd]
      linarith
    have hba : 0 ≤ b - a := sub_nonneg.mpr hab
    have hexp : a + (b - a) * (j : ℝ) / ((k : ℝ) - 1) = a + (b - a) * ((j : ℝ) / ((k : ℝ) - 1)) := by
      ring
    rw [hexp]
    constructor
    · nlinarith [mul_nonneg hba h0]
    · nlinarith [mul_nonneg hba (sub_nonneg.mpr h1)]

/-- C10: if the mask accepts a query center `tq` (with window value `w ≥ 0`),
then every subsample time of `interpolate` at that query lies within the
half-window `[tq - w/2, tq + w/2]` and, a fortiori, inside the trajectory's
fitted timestamp domain: valid queries never evaluate the interpolants
outside the fitted range. -/
theorem subsample_in_domain (traj : Trajectory) (tq w : ℝ) (k : ℕ)
    (hw : 0 ≤ w)
    (hmask : (valid_mask traj [tq] w).getD 0 false = true)
    (s : ℝ) (hs : s ∈ subsampleTimes tq w k) :
    (tq - w / 2 ≤ s ∧ s ≤ tq + w / 2) ∧
      (traj.x.headD 0 ≤ s ∧ s ≤ traj.x.getLastD 0) := by
  have hmask' : tq - w ≥ traj.x.headD 0 ∧ tq + w ≤ traj.x.getLastD 0 := by
    simpa [valid_mask, Bool.and_eq_true, decide_eq_true_iff] using hmask
  obtain ⟨o, ho, rfl⟩ := List.mem_map.mp hs
  have hb := linspace_bounds (-(w / 2)) (w / 2) k (by linarith) o ho
  refine ⟨⟨by linarith [hb.1], by linarith [hb.2]⟩, ?_, ?_⟩
  · linarith [hmask'.1, hb.1]
  · linarith [hmask'.2, hb.2]

/-- C10 (witness): trajectory with domain `[0,10]`, query center `0.2`,
window `0.1`, one subsample at `0.15`. -/
theorem subsample_in_domain_witness :
    (((1 : ℝ)/5 - (1/10) / 2 ≤ 3/20 ∧ (3 : ℝ)/20 ≤ 1/5 + (1/10) / 2) ∧
      (traj10.x.headD 0 ≤ 3/20 ∧ (3 : ℝ)/20 ≤ traj10.x.getLastD 0)) :=
  subsample_in_domain traj10 (1/5) (1/10) 1 (by norm_num)
    (by norm_num [valid_mask, traj10])
    (3/20) (by norm_num [subsampleTimes, linspace])

/-- Zero-padded indexing used by `scipy.signal.medfilt` at the boundaries. -/
def getPad {α : Type} (pad : α) (xs : List α) (i : ℤ) : α :=
  if 0 ≤ i then xs.getD i.toNat pad else pad

/-- Insert into a sorted list (ascending). -/
def insertSorted {α : Type} [LinearOrder α] (a : α) : List α → List α
  | [] => [a]
  | b :: bs => if a ≤ b then a :: b :: bs else b :: insertSorted a bs

/-- Insertion sort (ascending), used to take window medians. -/
def sortL {α : Type} [LinearOrder α] : List α → List α
  | [] => []
  | a :: rest => insertSorted a (sortL rest)

/-- Median of a window of odd length `k`: element `k / 2` of the sorted
window. -/
def medianOf {α : Type} [LinearOrder α] (pad : α) (win : List α) : α :=
  (sortL win).getD (win.length / 2) pad

/-- `scipy.signal.medfilt(xs, k)`: sliding median with window `k` centered
at each index, zero-padded at the boundaries. -/
def medfiltG {α : Type} [LinearOrder α] (pad : α) (xs : List α) (k : ℕ) : List α :=
  (List.range xs.length).map (fun (i : ℕ) =>
    medianOf pad ((List.range k).map (fun (j : ℕ) =>
      getPad pad xs ((i : ℤ) + (j : ℤ) - ((k / 2 : ℕ) : ℤ)))))

/-- `medfilt` on a float array. -/
def medfilt (volume : List ℝ) (kernel_size : ℕ) : List ℝ := medfiltG 0 volume kernel_size

/-- `medfilt` on the int-cast reject signal. -/
def medfiltZ (volume : List ℤ) (kernel_size : ℕ) : List ℤ := medfiltG 0 volume kernel_size

/-- `speed_slam = np.linalg.norm(velocity, axis=1)`. -/
def speedSlam (velocity : List Vec3) : List ℝ := velocity.map norm3

/-- `reject = medfilt((speed_slam + reject_threshold < speed_radar).astype(int),
kernel_size=reject_kernel)`. -/
def rejectSig (speed_slam speed_radar : List ℝ) (reject_threshold : ℝ)
    (reject_kernel : ℕ) : List ℤ :=
  medfiltZ
    (List.zipWith (fun s r => if s + reject_threshold < r then (1 : ℤ) else 0)
      speed_slam speed_radar)
    reject_kernel

/-- `speed_fused = np.where(reject | (speed_slam > speed_radar), speed_slam,
np.minimum(speed_slam + max_adjustment, speed_radar, medfilt(speed_radar,
kernel_size=adjust_kernel)))`.

`np.minimum` is a binary ufunc: its third positional argument is the `out`
parameter, so the median-filtered radar speed only receives the result of
`min(speed_slam + max_adjustment, speed_radar)` and does not participate in
the minimum itself. -/
def speedFused (speed_slam speed_radar : List ℝ) (reject_threshold : ℝ)
    (reject_kernel : ℕ) (max_adjustment : ℝ) (adjust_kernel : ℕ) : List ℝ :=
  let reject := rejectSig speed_slam speed_radar reject_threshold reject_kernel
  let _out := medfilt speed_radar adjust_kernel
  (List.range speed_slam.length).map (fun (i : ℕ) =>
    if reject.getD i 0 ≠ 0 ∨ speed_slam.getD i 0 > speed_radar.getD i 0 then
      speed_slam.getD i 0
    else
      min (speed_slam.getD i 0 + max_adjustment) (speed_radar.getD i 0))

/-- A float value as numpy produces it: finite, NaN, or a signed infinity. -/
inductive NpFloat where
  | num : ℝ → NpFloat
  | nan : NpFloat
  | pinf : NpFloat
  | ninf : NpFloat

/-- IEEE division as numpy performs it: `0/0 = NaN`, `x/0 = ±Inf` for
`x ≠ 0`, ordinary division otherwise. -/
def npDiv (x y : ℝ) : NpFloat :=
  if y = 0 then
    (if x = 0 then NpFloat.nan else if 0 < x then NpFloat.pinf else NpFloat.ninf)
  else NpFloat.num (x / y)

/-- `np.nan_to_num(·, nan=0.0, posinf=0.0, neginf=0.0)` on one value. -/
def nanToNum : NpFloat → ℝ
  | NpFloat.num x => x
  | NpFloat.nan => 0
  | NpFloat.pinf => 0
  | NpFloat.ninf => 0

/-- One component of `vel_out = speed_fused * velocity / speed_slam`
followed by `np.nan_to_num`. -/
def rescaleComp (fused slam comp : ℝ) : ℝ := nanToNum (npDiv (fused * comp) slam)

/-- One row of `vel_out` after `np.nan_to_num`. -/
def rescaleRow (fused slam : ℝ) (v : Vec3) : Vec3 :=
  (rescaleComp fused slam v.1, rescaleComp fused slam v.2.1, rescaleComp fused slam v.2.2)

/-- `Trajectory.postprocess` from the (possibly pre-smoothed) velocity on:
the early return when `adjust` is false, then speed fusion and row
rescaling. -/
def postprocessCore (velocity : List Vec3) (speed_radar : List ℝ) (adjust : Bool)
    (reject_threshold : ℝ) (reject_kernel : ℕ) (max_adjustment : ℝ)
    (adjust_kernel : ℕ) : List Vec3 :=
  if !adjust then velocity
  else
    let speed_slam := speedSlam velocity
    let speed_fused := speedFused speed_slam speed_radar reject_threshold
      reject_kernel max_adjustment adjust_kernel
    (List.range velocity.length).map (fun (i : ℕ) =>
      rescaleRow (speed_fused.getD i 0) (speed_slam.getD i 0)
        (velocity.getD i (0, 0, 0)))

/-- `Trajectory.postprocess` in full; `gauss` abstracts
`scipy.ndimage.gaussian_filter1d(·, sigma=smoothing, axis=0)`. -/
def postprocess (gauss : ℝ → List Vec3 → List Vec3) (velocity : List Vec3)
    (speed_radar : List ℝ) (smoothing : ℝ) (adjust : Bool) (reject_threshold : ℝ)
    (reject_kernel : ℕ) (max_adjustment : ℝ) (adjust_kernel : ℕ) : List Vec3 :=
  let v := if smoothing > 0 then gauss smoothing velocity else velocity
  postprocessCore v speed_radar adjust reject_threshold reject_kernel
    max_adjustment adjust_kernel

/-- C8: with `adjust = false`, fusion returns exactly the smoothed input
when `smoothing > 0` and exactly the raw input otherwise; the radar speed
and the remaining fusion parameters have no effect. -/
theorem postprocess_no_adjust (gauss : ℝ → List Vec3 → List Vec3)
    (velocity : List Vec3) (speed_radar : List ℝ) (smoothing : ℝ)
    (reject_threshold : ℝ) (reject_kernel : ℕ) (max_adjustment : ℝ)
    (adjust_kernel : ℕ) :
    postprocess gauss velocity speed_radar smoothing false reject_threshold
        reject_kernel max_adjustment adjust_kernel =
      (if smoothing > 0 then gauss smoothing velocity else velocity) := rfl

theorem norm3_unit : norm3 ((1 : ℝ), 0, 0) = 1 := by
  norm_num [norm3]

theorem norm3_origin : norm3 ((0 : ℝ), 0, 0) = 0 := by
  norm_num [norm3]

theorem norm3_nonneg (v : Vec3) : 0 ≤ norm3 v := Real.sqrt_nonneg _

theorem getD_range {n i : ℕ} (h : i < n) (d : ℕ) : (List.range n).getD i d = i := by
  rw [List.getD_eq_getElem?_getD, List.getElem?_range h]
  rfl

theorem getD_map_range {β : Type} (f : ℕ → β) {n i : ℕ} (h : i < n) (d : β) :
    ((List.range n).map f).getD i d = f i := by
  rw [getD_map_of_lt f _ i (by simpa using h) d 0, getD_range h]

theorem speedSlam_getD (velocity : List Vec3) (i : ℕ) (hi : i < velocity.length) :
    (speedSlam velocity).getD i 0 = norm3 (velocity.getD i (0, 0, 0)) :=
  getD_map_of_lt norm3 velocity i hi 0 (0, 0, 0)

theorem speedSlam_length (velocity : List Vec3) :
    (speedSlam velocity).length = velocity.length := by
  rw [speedSlam, List.length_map]

/-- C7: whenever the radar speed at a row is strictly less than the SLAM
speed (the norm of the velocity row), the fused speed at that row is
exactly the SLAM speed. -/
theorem speedFused_radar_lt (velocity : List Vec3) (speed_radar : List ℝ)
    (reject_threshold : ℝ) (reject_kernel : ℕ) (max_adjustment : ℝ)
    (adjust_kernel : ℕ) (i : ℕ) (hi : i < velocity.length)
    (h : speed_radar.getD i 0 < norm3 (velocity.getD i (0, 0, 0))) :
    (speedFused (speedSlam velocity) speed_radar reject_threshold reject_kernel
        max_adjustment adjust_kernel).getD i 0 =
      norm3 (velocity.getD i (0, 0, 0)) := by
  have hlen : i < (speedSlam velocity).length := by
    rw [speedSlam_length]
    exact hi
  simp only [speedFused]
  rw [getD_map_range _ hlen, speedSlam_getD velocity i hi, if_pos (Or.inr h)]

/-- C7 (witness): one row `(1,0,0)` (SLAM speed 1), radar speed `1/2`. -/
theorem speedFused_radar_lt_witness :
    (speedFused (speedSlam [((1 : ℝ), 0, 0)]) [1/2] (3/10) 7 (1/2) 15).getD 0 0 =
      norm3 ((1 : ℝ), 0, 0) :=
  speedFused_radar_lt [((1 : ℝ), 0, 0)] [1/2] (3/10) 7 (1/2) 15 0 (by norm_num)
    (show (1 : ℝ)/2 < norm3 ((1 : ℝ), 0, 0) by rw [norm3_unit]; norm_num)

theorem rescaleComp_slam_zero (fused comp : ℝ) : rescaleComp fused 0 comp = 0 := by
  rw [rescaleComp, npDiv, if_pos rfl]
  by_cases hx : fused * comp = 0
  · rw [if_pos hx]
    rfl
  · rw [if_neg hx]
    by_cases h2 : 0 < fused * comp
    · rw [if_pos h2]
      rfl
    · rw [if_neg h2]
      rfl

/-- C5: with `adjust = true`, every row whose SLAM speed is zero produces
the zero vector in the output: the `0/0` NaNs from the rescale division are
replaced by `np.nan_to_num`, and no error is propagated. -/
theorem postprocess_zero_speed (velocity : List Vec3) (speed_radar : List ℝ)
    (reject_threshold : ℝ) (reject_kernel : ℕ) (max_adjustment : ℝ)
    (adjust_kernel : ℕ) (i : ℕ) (hi : i < velocity.length)
    (h0 : norm3 (velocity.getD i (0, 0, 0)) = 0) :
    (postprocessCore velocity speed_radar true reject_threshold reject_kernel
        max_adjustment adjust_kernel).getD i (0, 0, 0) = ((0 : ℝ), 0, 0) := by
  simp only [postprocessCore, Bool.not_true, Bool.false_eq_true, if_false]
  rw [getD_map_range _ hi, speedSlam_getD velocity i hi, h0, rescaleRow,
    rescaleComp_slam_zero, rescaleComp_slam_zero, rescaleComp_slam_zero]

/-- C5 (witness): the single zero row with radar speed 1. -/
theorem postprocess_zero_speed_witness :
    (postprocessCore [((0 : ℝ), 0, 0)] [1] true (3/10) 7 (1/2) 15).getD 0 (0, 0, 0) =
      ((0 : ℝ), 0, 0) :=
  postprocess_zero_speed [((0 : ℝ), 0, 0)] [1] (3/10) 7 (1/2) 15 0 (by norm_num)
    (show norm3 ((0 : ℝ), 0, 0) = 0 from norm3_origin)

theorem rescaleComp_slam_ne_zero (fused slam comp : ℝ) (hs : slam ≠ 0) :
    rescaleComp fused slam comp = fused / slam * comp := by
  rw [rescaleComp, npDiv, if_neg hs, nanToNum, mul_div_right_comm]

/-- C4 (amended, assuming `max_adjustment ≥ 0`): for every row whose SLAM
speed is nonzero, the fused speed is non-negative and the output row is a
positive scalar multiple of the input row — the direction is unchanged,
only the magnitude. -/
theorem postprocess_direction (velocity : List Vec3) (speed_radar : List ℝ)
    (reject_threshold : ℝ) (reject_kernel : ℕ) (max_adjustment : ℝ)
    (adjust_kernel : ℕ) (hadj : 0 ≤ max_adjustment) (i : ℕ)
    (hi : i < velocity.length)
    (hn : norm3 (velocity.getD i (0, 0, 0)) ≠ 0) :
    0 ≤ (speedFused (speedSlam velocity) speed_radar reject_threshold
        reject_kernel max_adjustment adjust_kernel).getD i 0 ∧
    ∃ c : ℝ, 0 < c ∧
      (postprocessCore velocity speed_radar true reject_threshold reject_kernel
          max_adjustment adjust_kernel).getD i (0, 0, 0) =
        scaleV c (velocity.getD i (0, 0, 0)) := by
  have hlen : i < (speedSlam velocity).length := by
    rw [speedSlam_length]
    exact hi
  have hslam : 0 < norm3 (velocity.getD i (0, 0, 0)) :=
    lt_of_le_of_ne (norm3_nonneg _) (Ne.symm hn)
  have hfpos : 0 < (speedFused (speedSlam velocity) speed_radar reject_threshold
      reject_kernel max_adjustment adjust_kernel).getD i 0 := by
    simp only [speedFused]
    rw [getD_map_range _ hlen, speedSlam_getD velocity i hi]
    split_ifs with hc
    · exact hslam
    · push_neg at hc
      exact lt_min (by linarith) (by linarith [hc.2])
  refine ⟨le_of_lt hfpos, ?_⟩
  refine ⟨(speedFused (speedSlam velocity) speed_radar reject_threshold
      reject_kernel max_adjustment adjust_kernel).getD i 0 /
      norm3 (velocity.getD i (0, 0, 0)), div_pos hfpos hslam, ?_⟩
  simp only [postprocessCore, Bool.not_true, Bool.false_eq_true, if_false]
  rw [getD_map_range _ hi, speedSlam_getD velocity i hi, rescaleRow, scaleV,
    rescaleComp_slam_ne_zero _ _ _ hn, rescaleComp_slam_ne_zero _ _ _ hn,
    rescaleComp_slam_ne_zero _ _ _ hn]

/-- C4 (witness for the amended claim): row `(1,0,0)`, radar speed 5,
default fusion parameters. -/
theorem postprocess_direction_witness :
    0 ≤ (speedFused (speedSlam [((1 : ℝ), 0, 0)]) [5] (3/10) 7 (1/2) 15).getD 0 0 ∧
    ∃ c : ℝ, 0 < c ∧
      (postprocessCore [((1 : ℝ), 0, 0)] [5] true (3/10) 7 (1/2) 15).getD 0 (0, 0, 0) =
        scaleV c ((1 : ℝ), 0, 0) :=
  postprocess_direction [((1 : ℝ), 0, 0)] [5] (3/10) 7 (1/2) 15 (by norm_num) 0
    (by norm_num)
    (show norm3 ((1 : ℝ), 0, 0) ≠ 0 by rw [norm3_unit]; norm_num)

/-- C4 (counterexample to the claim as stated): with the (admissible but
pathological) parameter `max_adjustment = -2`, the row `(1,0,0)` with radar
speed 5 is rescaled to `(-1,0,0)` — the direction flips and the fused speed
is negative. -/
theorem postprocess_direction_cex :
    (postprocessCore [((1 : ℝ), 0, 0)] [5] true 10 1 (-2) 1).getD 0 (0, 0, 0) =
      ((-1 : ℝ), 0, 0) ∧
    ¬ (0 ≤ (speedFused (speedSlam [((1 : ℝ), 0, 0)]) [5] 10 1 (-2) 1).getD 0 0) := by
  have hslam : speedSlam [((1 : ℝ), 0, 0)] = [1] := by
    simp only [speedSlam, List.map_cons, List.map_nil, norm3_unit]
  have hind :
      List.zipWith (fun s r => if s + 10 < r then (1 : ℤ) else 0)
        ([1] : List ℝ) ([5] : List ℝ) = [0] := by
    norm_num [List.zipWith]
  have hrej : rejectSig [1] [5] 10 1 = [0] := by
    rw [rejectSig, hind]
    decide
  have hfused : speedFused [1] [5] 10 1 (-2) 1 = [-1] := by
    simp only [speedFused, hrej]
    simp only [show List.range ([(1 : ℝ)].length) = [0] from rfl, List.map_cons,
      List.map_nil, List.getD_cons_zero]
    norm_num [min_def]
  constructor
  · simp only [postprocessCore, Bool.not_true, Bool.false_eq_true, if_false]
    rw [getD_map_range _ (show (0 : ℕ) < ([((1 : ℝ), 0, 0)] : List Vec3).length by norm_num),
      hslam, hfused]
    simp only [List.getD_cons_zero]
    have hr : ∀ c : ℝ, rescaleComp (-1) 1 c = -1 / 1 * c :=
      fun c => rescaleComp_slam_ne_zero (-1) 1 c (by norm_num)
    simp only [rescaleRow, hr]
    norm_num
  · rw [hslam, hfused]
    simp only [List.getD_cons_zero]
    norm_num

theorem sortL_three : sortL ([1/5, 5, 1/5] : List ℝ) = [1/5, 1/5, 5] := by
  rw [sortL, sortL, sortL, sortL, insertSorted, insertSorted,
    if_neg (by norm_num : ¬ ((5 : ℝ) ≤ 1/5)), insertSorted,
    insertSorted, if_pos (by norm_num : ((1 : ℝ)/5 ≤ 1/5))]

theorem medfilt_radar_at_2 :
    (medfilt [5, 1/5, 5, 1/5, 5] 3).getD 2 0 = 1/5 := by
  rw [medfilt, medfiltG,
    getD_map_range _ (show (2 : ℕ) < ([5, 1/5, 5, 1/5, 5] : List ℝ).length by norm_num)]
  have e0 : ((2 : ℕ) : ℤ) + ((0 : ℕ) : ℤ) - (((3 : ℕ) / 2 : ℕ) : ℤ) = 1 := by decide
  have e1 : ((2 : ℕ) : ℤ) + ((1 : ℕ) : ℤ) - (((3 : ℕ) / 2 : ℕ) : ℤ) = 2 := by decide
  have e2 : ((2 : ℕ) : ℤ) + ((2 : ℕ) : ℤ) - (((3 : ℕ) / 2 : ℕ) : ℤ) = 3 := by decide
  simp only [show List.range 3 = [0, 1, 2] from rfl, List.map_cons, List.map_nil,
    e0, e1, e2]
  have g1 : getPad (0 : ℝ) [5, 1/5, 5, 1/5, 5] 1 = 1/5 := by
    rw [getPad, if_pos (by norm_num)]
    rfl
  have g2 : getPad (0 : ℝ) [5, 1/5, 5, 1/5, 5] 2 = 5 := by
    rw [getPad, if_pos (by norm_num)]
    rfl
  have g3 : getPad (0 : ℝ) [5, 1/5, 5, 1/5, 5] 3 = 1/5 := by
    rw [getPad, if_pos (by norm_num)]
    rfl
  rw [g1, g2, g3, medianOf, sortL_three]
  rfl

/-- C1: the claim's three-way minimum does not match the code.  On five
rows `(1,0,0)` (SLAM speed 1) with radar speeds `[5, 0.2, 5, 0.2, 5]`,
`reject_threshold = 10` (so no row is rejected), `reject_kernel = 1`,
`max_adjustment = 0.5` and `adjust_kernel = 3`: at row 2 the reject flag is
0 and `speed_slam = 1 ≤ 5 = S`, the claimed three-way minimum
`min(speed_slam + max_adjustment, S, medfilt(S, 3))` is `0.2`, but the code
produces `1.5` — `np.minimum` is a binary ufunc and its third positional
argument is the `out` buffer, so the median-filtered radar speed never
enters the minimum. -/
theorem speedFused_np_minimum_out_eval :
    speedFused (speedSlam (List.replicate 5 ((1 : ℝ), 0, 0))) [5, 1/5, 5, 1/5, 5]
        10 1 (1/2) 3 = [3/2, 1, 3/2, 1, 3/2] ∧
    (rejectSig (speedSlam (List.replicate 5 ((1 : ℝ), 0, 0))) [5, 1/5, 5, 1/5, 5]
        10 1).getD 2 0 = 0 ∧
    min (min ((1 : ℝ) + 1/2) 5) ((medfilt [5, 1/5, 5, 1/5, 5] 3).getD 2 0) = 1/5 := by
  have hslam : speedSlam (List.replicate 5 ((1 : ℝ), 0, 0)) = [1, 1, 1, 1, 1] := by
    simp only [speedSlam, List.map_replicate, norm3_unit]
    rfl
  have hind :
      List.zipWith (fun s r => if s + 10 < r then (1 : ℤ) else 0)
        ([1, 1, 1, 1, 1] : List ℝ) ([5, 1/5, 5, 1/5, 5] : List ℝ) =
        [0, 0, 0, 0, 0] := by
    norm_num [List.zipWith]
  have hrej : rejectSig [1, 1, 1, 1, 1] [5, 1/5, 5, 1/5, 5] 10 1 =
      [0, 0, 0, 0, 0] := by
    rw [rejectSig, hind]
    decide
  refine ⟨?_, ?_, ?_⟩
  · rw [hslam]
    simp only [speedFused, hrej]
    simp only [show List.range (([1, 1, 1, 1, 1] : List ℝ).length) = [0, 1, 2, 3, 4]
        from rfl,
      List.map_cons, List.map_nil, List.getD_cons_zero, List.getD_cons_succ]
    norm_num [min_def]
  · rw [hslam, hrej]
    rfl
  · rw [medfilt_radar_at_2]
    norm_num [min_def]
